import Mathlib

/-!
A shallow embedding, in Lean 4, of the decision engine of the
`polymarket-hft-dashboard` repository (Rust), together with proofs of the
specification claims about it.

Conventions of the embedding:
* `f64` values are modelled as `ℚ` wherever the source only adds, multiplies,
  divides and compares them; `ℝ` is used where the source takes square roots
  (`optimization.rs` scores, Sharpe ratio) or logarithms (graph edge weights).
  Division by zero is total (`= 0`) in `ℚ`/`ℝ`, a standard convention.
* `FxHashMap`/`HashMap` values are modelled as association lists with
  replace-on-insert semantics (`ainsert`) and first-match lookup (`alookup`);
  iteration order is the (deterministic) insertion order of the list.
* Randomness (`rand::thread_rng`) and the outcome of the snapshot refresh at
  the start of a cycle are modelled as explicit oracle inputs.
* Wall-clock fields (`chrono` timestamps, `Instant` durations) and network
  clients are not represented: no claim mentions them.
* Rust's `Vec::sort_by` is a stable sort; it is modelled by
  `List.insertionSort`, which is stable and sorts by the same comparator.
-/

namespace PolyHft

/-- First-match lookup in an association list (models `HashMap::get`). -/
def alookup [DecidableEq κ] : List (κ × ν) → κ → Option ν
  | [], _ => none
  | (k, v) :: rest, key => if k = key then some v else alookup rest key

/-- Replace-or-append insertion in an association list
(models `HashMap::insert`; a fresh key goes to the end, matching the
insertion-order iteration used by this embedding). -/
def ainsert [DecidableEq κ] : List (κ × ν) → κ → ν → List (κ × ν)
  | [], key, v => [(key, v)]
  | (k, w) :: rest, key, v =>
    if k = key then (key, v) :: rest else (k, w) :: ainsert rest key v

/-- From `types.rs`: `TokenType`. -/
inductive TokenType where
  | yes
  | no
deriving DecidableEq

/-- From `types.rs`: `Direction`. -/
inductive Direction where
  | buy
  | sell
deriving DecidableEq

/-- From `types.rs`: `ArbType`. -/
inductive ArbType where
  | yesNoSimple
  | yesNoMulti
  | graphArbitrage
  | statisticalArb
  | mevExtraction
deriving DecidableEq

/-- From `types.rs`: `MarketData` (timestamp omitted: wall-clock time). -/
structure MarketData where
  id : String
  question : String
  yes_price : ℚ
  no_price : ℚ
  yes_liquidity : ℚ
  no_liquidity : ℚ
  volume_24h : ℚ
deriving DecidableEq

/-- From `types.rs`: `ArbitrageLeg`. -/
structure ArbitrageLeg where
  market_id : String
  token_type : TokenType
  direction : Direction
  price : ℚ
  quantity : ℚ
deriving DecidableEq

/-- From `types.rs`: `ArbitrageOpportunity` (timestamp omitted). -/
structure ArbitrageOpportunity where
  market_id : String
  question : String
  arb_type : ArbType
  profit : ℚ
  roi_pct : ℚ
  confidence : ℚ
  yes_price : ℚ
  no_price : ℚ
  sum_price : ℚ
  liquidity : ℚ
  legs : Option (List ArbitrageLeg)
  path : Option (List String)
deriving DecidableEq

/-- From `types.rs`: `TradeExecution` (entry/exit timestamps and the measured
execution time omitted: wall-clock time). -/
structure TradeExecution where
  trade_id : String
  market_id : String
  arb_type : ArbType
  legs : List ArbitrageLeg
  total_investment : ℚ
  expected_return : ℚ
  actual_return : ℚ
  profit : ℚ
  roi_pct : ℚ
  slippage_pct : ℚ
  gas_cost : ℚ
  fees : ℚ
deriving DecidableEq

/-- From `arbitrage.rs`: `ArbitrageDetector`. -/
structure ArbitrageDetector where
  min_profit : ℚ
  min_liquidity : ℚ
deriving DecidableEq

/-- From `arbitrage.rs`: `ArbitrageDetector::new`.  The `min_profit` argument is
ignored by the source; the field is hard-coded to `0.005`. -/
def ArbitrageDetector.new (_min_profit min_liquidity : ℚ) : ArbitrageDetector :=
  { min_profit := 0.005
    min_liquidity := min_liquidity }

/-- From `arbitrage.rs`: `ArbitrageDetector::detect_yes_no_arbitrage`. -/
def ArbitrageDetector.detect_yes_no_arbitrage (d : ArbitrageDetector)
    (market : MarketData) : Option ArbitrageOpportunity :=
  let sum := market.yes_price + market.no_price
  if sum ≥ 1 then none
  else
    let arb_profit := 1 - sum
    if arb_profit < d.min_profit then none
    else
      let total_liquidity := market.yes_liquidity + market.no_liquidity
      if total_liquidity < d.min_liquidity then none
      else
        let liquidity_score := min (total_liquidity / 10000) 1
        let profit_score := min (arb_profit / 0.05) 1
        let volume_score := min (market.volume_24h / 50000) 1
        let confidence :=
          liquidity_score * 0.3 + profit_score * 0.5 + volume_score * 0.2
        some
          { market_id := market.id
            question := market.question
            arb_type := ArbType.yesNoSimple
            profit := arb_profit
            roi_pct := arb_profit * 100
            confidence := confidence
            yes_price := market.yes_price
            no_price := market.no_price
            sum_price := sum
            liquidity := total_liquidity
            legs := some
              [ { market_id := market.id
                  token_type := TokenType.yes
                  direction := Direction.buy
                  price := market.yes_price
                  quantity := 0 },
                { market_id := market.id
                  token_type := TokenType.no
                  direction := Direction.buy
                  price := market.no_price
                  quantity := 0 } ]
            path := none }

/-- From `arbitrage.rs`: `ArbitrageDetector::scan_markets`. -/
def ArbitrageDetector.scan_markets (d : ArbitrageDetector)
    (markets : List MarketData) : List ArbitrageOpportunity :=
  markets.filterMap d.detect_yes_no_arbitrage

/-- From `types.rs`: `BotConfig` (network endpoints, credentials and polling
timings omitted: no claim mentions them). -/
structure BotConfig where
  initial_capital : ℚ
  min_profit_threshold : ℚ
  risk_per_trade : ℚ
  max_position_size : ℚ
  enable_mev : Bool
  use_real_data : Bool
deriving DecidableEq

/-- From `execution.rs`: `VwapTracker`. -/
structure VwapTracker where
  window_size : ℕ
  price_history : List (String × List (TokenType × ℚ))
deriving DecidableEq

/-- From `execution.rs`: `VwapTracker::new`. -/
def VwapTracker.new (window_size : ℕ) : VwapTracker :=
  { window_size := window_size
    price_history := [] }

/-- From `execution.rs`: `VwapTracker::update`.  Note that the per-market buffer is
shared by both token sides: the `(TokenType, f64)` pairs of one market live in
a single vector bounded by `window_size`. -/
def VwapTracker.update (t : VwapTracker) (market_id : String)
    (token_type : TokenType) (price : ℚ) : VwapTracker :=
  let history := (alookup t.price_history market_id).getD []
  let history := history ++ [(token_type, price)]
  let history := if history.length > t.window_size then history.tail else history
  { t with price_history := ainsert t.price_history market_id history }

/-- From `execution.rs`: `VwapTracker::get_vwap`. -/
def VwapTracker.get_vwap (t : VwapTracker) (market_id : String)
    (token_type : TokenType) : Option ℚ :=
  match alookup t.price_history market_id with
  | none => none
  | some history =>
    let relevant := history.filter fun e => decide (e.1 = token_type)
    if relevant.isEmpty then none
    else some ((relevant.map fun e => e.2).sum / (relevant.length : ℚ))

/-- The prices retained by a `VwapTracker` for one instrument and one side,
in buffer order (projection used to state properties of `get_vwap`). -/
def sidePrices (t : VwapTracker) (market_id : String) (token_type : TokenType) :
    List ℚ :=
  ((((alookup t.price_history market_id).getD []).filter
      fun e => decide (e.1 = token_type)).map fun e => e.2)

/-- From `execution.rs`: `OrderStatus`. -/
inductive OrderStatus where
  | pending
  | submitted
  | partialFill
  | filled
  | failed
deriving DecidableEq

/-- From `execution.rs`: `Order`. -/
structure Order where
  order_id : String
  market_id : String
  token_type : TokenType
  direction : Direction
  price : ℚ
  quantity : ℚ
  status : OrderStatus
deriving DecidableEq

/-- From `execution.rs`: `TradeExecutor`. -/
structure TradeExecutor where
  config : BotConfig
  executed_trades : List TradeExecution
  pending_orders : List (String × Order)
  vwap_tracker : VwapTracker
deriving DecidableEq

/-- From `execution.rs`: `TradeExecutor::new`. -/
def TradeExecutor.new (config : BotConfig) : TradeExecutor :=
  { config := config
    executed_trades := []
    pending_orders := []
    vwap_tracker := VwapTracker.new 20 }

/-- From `execution.rs`: `TradeExecutor::_calculate_position`. -/
def TradeExecutor._calculate_position (e : TradeExecutor) (capital : ℚ)
    (opportunity : ArbitrageOpportunity) : ℚ :=
  min (capital * e.config.max_position_size) (opportunity.liquidity * 0.1)

/-- From `execution.rs`: `TradeExecutor::execute_arbitrage`.  The sampled slippage
(`thread_rng().gen_range(0.0..0.005)`) is an oracle input; the mutation of
`self` is returned as the second component. -/
def TradeExecutor.execute_arbitrage (e : TradeExecutor)
    (opportunity : ArbitrageOpportunity) (capital : ℚ) (slippage_pct : ℚ) :
    Option TradeExecution × TradeExecutor :=
  let position := e._calculate_position capital opportunity
  if position < 10 then (none, e)
  else
    let yes_position := position / 2
    let no_position := position / 2
    let yes_vwap := e.vwap_tracker.get_vwap opportunity.market_id TokenType.yes
    let no_vwap := e.vwap_tracker.get_vwap opportunity.market_id TokenType.no
    let yes_price := yes_vwap.getD 0.5
    let no_price := no_vwap.getD 0.5
    let legs : List ArbitrageLeg :=
      [ { market_id := opportunity.market_id
          token_type := TokenType.yes
          direction := Direction.buy
          price := yes_price
          quantity := yes_position / yes_price },
        { market_id := opportunity.market_id
          token_type := TokenType.no
          direction := Direction.buy
          price := no_price
          quantity := no_position / no_price } ]
    let total_investment := (legs.map fun l => l.price * l.quantity).sum
    let expected_return := position
    let actual_return := expected_return * (1 - slippage_pct)
    let profit := actual_return - total_investment
    let trade : TradeExecution :=
      { trade_id := "trade_" ++ toString (e.executed_trades.length + 1)
        market_id := opportunity.market_id
        arb_type := opportunity.arb_type
        legs := legs
        total_investment := total_investment
        expected_return := expected_return
        actual_return := actual_return
        profit := profit
        roi_pct := profit / total_investment * 100
        slippage_pct := slippage_pct * 100
        gas_cost := 0.02
        fees := total_investment * 0.002 }
    (some trade, { e with executed_trades := e.executed_trades ++ [trade] })

/-- From `execution.rs`: `MevDetector` (its detection method is unused by the
orchestrator and by every claim). -/
structure MevDetector where
  block_time_window : ℕ
deriving DecidableEq

/-- From `optimization.rs`: `StatisticalArbOptimizer`. -/
structure StatisticalArbOptimizer where
  max_pairs : ℕ
  min_liquidity : ℚ
deriving DecidableEq

/-- From `optimization.rs`: `StatisticalArbOptimizer::new`. -/
def StatisticalArbOptimizer.new : StatisticalArbOptimizer :=
  { max_pairs := 20
    min_liquidity := 500 }

/-- From `optimization.rs`: the filter predicate of `optimize_arbitrage_pairs`:
`roi_pct > 1.0 && liquidity >= min_liquidity`. -/
def optFilter (o : StatisticalArbOptimizer) (opp : ArbitrageOpportunity) : Bool :=
  decide (opp.roi_pct > 1) && decide (opp.liquidity ≥ o.min_liquidity)

/-- From `optimization.rs`: the score `roi_pct * confidence * liquidity.sqrt() / 100`
of `optimize_arbitrage_pairs`. -/
noncomputable def oppScore (opp : ArbitrageOpportunity) : ℝ :=
  (opp.roi_pct : ℝ) * (opp.confidence : ℝ) * Real.sqrt (opp.liquidity : ℝ) / 100

/-- The descending-score comparator of `optimize_arbitrage_pairs` on the
`(index, score, opportunity)` triples built by the source (`b.1.partial_cmp(&a.1)`). -/
def scoredRel (a b : ℕ × ℝ × ArbitrageOpportunity) : Prop :=
  b.2.1 ≤ a.2.1

noncomputable instance : DecidableRel scoredRel := fun _ _ => Real.decidableLE _ _

instance : IsTotal (ℕ × ℝ × ArbitrageOpportunity) scoredRel :=
  ⟨fun a b => le_total b.2.1 a.2.1⟩

instance : IsTrans (ℕ × ℝ × ArbitrageOpportunity) scoredRel :=
  ⟨fun _ _ _ hab hbc => le_trans hbc hab⟩

/-- From `optimization.rs`: the `(original index, score, opportunity)` list built by
`optimize_arbitrage_pairs` from the filtered input (`enumerate` + score). -/
noncomputable def optScored (o : StatisticalArbOptimizer)
    (opportunities : List ArbitrageOpportunity) : List (ℕ × ℝ × ArbitrageOpportunity) :=
  ((opportunities.filter (optFilter o)).enum).map fun p => (p.1, oppScore p.2, p.2)

/-- From `optimization.rs`: the stable descending sort of the scored list
(`Vec::sort_by` is a stable sort; `List.insertionSort` is its stable model). -/
noncomputable def optSorted (o : StatisticalArbOptimizer)
    (opportunities : List ArbitrageOpportunity) : List (ℕ × ℝ × ArbitrageOpportunity) :=
  List.insertionSort scoredRel (optScored o opportunities)

/-- From `optimization.rs`: `StatisticalArbOptimizer::optimize_arbitrage_pairs`. -/
noncomputable def StatisticalArbOptimizer.optimize_arbitrage_pairs
    (o : StatisticalArbOptimizer) (opportunities : List ArbitrageOpportunity)
    (_capital : ℚ) : List ArbitrageOpportunity :=
  if opportunities.isEmpty then []
  else
    let filtered := opportunities.filter (optFilter o)
    if filtered.isEmpty then []
    else ((optSorted o opportunities).take o.max_pairs).map fun s => s.2.2

/-- From `optimization.rs`: `StatisticalArbOptimizer::bregman_projection`
(identity pass-through in the source). -/
def StatisticalArbOptimizer.bregman_projection (_o : StatisticalArbOptimizer)
    (opportunities : List ArbitrageOpportunity) : List ArbitrageOpportunity :=
  opportunities

/-- From `optimization.rs`: `IpPortfolioOptimizer`. -/
structure IpPortfolioOptimizer where
  max_portfolio_size : ℕ
deriving DecidableEq

/-- From `risk.rs`: `RiskMetrics` (`types.rs`).  `sharpe_ratio` is real-valued
because the source takes a square root. -/
structure RiskMetrics where
  var_95 : ℚ
  daily_loss_limit : ℚ
  max_consecutive_losses : ℕ
  max_drawdown : ℚ
  current_drawdown : ℚ
  sharpe_ratio : ℝ

/-- From `risk.rs`: `RiskManager`. -/
structure RiskManager where
  metrics : RiskMetrics
  trade_history : List ℚ
  consecutive_losses : ℕ
  daily_loss : ℚ
  peak_capital : ℚ
  low_capital : ℚ

/-- From `risk.rs`: `RiskManager::new` (the last three parameters are unused by the
source constructor). -/
def RiskManager.new (daily_loss_limit : ℚ) (max_consecutive_losses : ℕ)
    (max_drawdown : ℚ) (_max_position_size _max_daily_loss_pct : ℚ)
    (_max_consecutive_losses_limit : ℕ) : RiskManager :=
  { metrics :=
      { var_95 := 0
        daily_loss_limit := daily_loss_limit
        max_consecutive_losses := max_consecutive_losses
        max_drawdown := max_drawdown
        current_drawdown := 0
        sharpe_ratio := 0 }
    trade_history := []
    consecutive_losses := 0
    daily_loss := 0
    peak_capital := 0
    low_capital := 0 }

/-- From `risk.rs`: `RiskManager::calculate_var_95`.  `sort_by` over `f64` losses is
modelled by the (stable, value-identical) ascending insertion sort. -/
def RiskManager.calculate_var_95 (rm : RiskManager) : ℚ :=
  if rm.trade_history.length < 20 then 0
  else
    let losses := rm.trade_history.filter fun p => decide (p < 0)
    let losses := List.insertionSort (fun a b : ℚ => a ≤ b) losses
    let index := (((losses.length : ℚ) * 0.95).floor).toNat
    if h : index < losses.length then -(losses.get ⟨index, h⟩) else 0

/-- From `risk.rs`: `RiskManager::calculate_sharpe_ratio`. -/
noncomputable def RiskManager.calculate_sharpe_ratio (rm : RiskManager) : ℝ :=
  if rm.trade_history.length < 10 then 0
  else
    let mean : ℚ := rm.trade_history.sum / (rm.trade_history.length : ℚ)
    let variance : ℚ :=
      (rm.trade_history.map fun x => (x - mean) ^ 2).sum / (rm.trade_history.length : ℚ)
    let std := Real.sqrt (variance : ℝ)
    if std < 1e-9 then 0
    else (mean : ℝ) / std * Real.sqrt 252

/-- From `risk.rs`: `RiskManager::update`.  Division by a zero `peak_capital`
yields `0` in `ℚ` (the source would produce a non-finite float there; no claim
depends on that corner). -/
noncomputable def RiskManager.update (rm : RiskManager) (profit capital : ℚ) :
    RiskManager :=
  let history := rm.trade_history ++ [profit]
  let history := if history.length > 1000 then history.tail else history
  let consecutive := if profit < 0 then rm.consecutive_losses + 1 else 0
  let dloss := if profit < 0 then rm.daily_loss + |profit| else rm.daily_loss
  let peak := if capital > rm.peak_capital then capital else rm.peak_capital
  let low := if capital > rm.peak_capital then capital else rm.low_capital
  let low := if capital < low then capital else low
  let rm₁ : RiskManager :=
    { rm with
      trade_history := history
      consecutive_losses := consecutive
      daily_loss := dloss
      peak_capital := peak
      low_capital := low }
  { rm₁ with
    metrics :=
      { rm₁.metrics with
        current_drawdown := (peak - capital) / peak
        var_95 := rm₁.calculate_var_95
        sharpe_ratio := rm₁.calculate_sharpe_ratio } }

/-- From `risk.rs`: `RiskManager::can_trade` (the capital argument is unused by the
source). -/
def RiskManager.can_trade (rm : RiskManager) (_capital : ℚ) : Bool :=
  if rm.daily_loss ≥ rm.metrics.daily_loss_limit then false
  else if rm.consecutive_losses ≥ rm.metrics.max_consecutive_losses then false
  else if rm.metrics.current_drawdown ≥ rm.metrics.max_drawdown then false
  else true

/-- From `risk.rs`: `RiskManager::reset_daily`. -/
def RiskManager.reset_daily (rm : RiskManager) : RiskManager :=
  { rm with daily_loss := 0 }

/-- From `risk.rs`: `PositionSizer`. -/
structure PositionSizer where
  kelly_fraction : ℚ
  max_position_pct : ℚ
  min_position : ℚ
deriving DecidableEq

/-- From `risk.rs`: `PositionSizer::new`. -/
def PositionSizer.new (kelly_fraction max_position_pct min_position : ℚ) :
    PositionSizer :=
  { kelly_fraction := kelly_fraction
    max_position_pct := max_position_pct
    min_position := min_position }

/-- From `risk.rs`: `PositionSizer::calculate_position`. -/
def PositionSizer.calculate_position (s : PositionSizer) (capital win_rate
    avg_win avg_loss confidence : ℚ) : ℚ :=
  if win_rate ≤ 0 ∨ avg_loss ≤ 0 then s.min_position
  else
    let win_loss_ratio := avg_win / avg_loss
    let kelly_pct := (win_rate * win_loss_ratio - (1 - win_rate)) / win_loss_ratio
    let adjusted_kelly := kelly_pct * s.kelly_fraction * confidence
    let position := capital * min adjusted_kelly s.max_position_pct
    max position s.min_position

/-- From `rl.rs`: `QLearningOptimizer`. -/
structure QLearningOptimizer where
  q_table : List (String × List (ℕ × ℚ))
  epsilon : ℚ
  alpha : ℚ
  gamma : ℚ
deriving DecidableEq

/-- From `rl.rs`: `QLearningOptimizer::new`. -/
def QLearningOptimizer.new (epsilon alpha gamma : ℚ) : QLearningOptimizer :=
  { q_table := []
    epsilon := epsilon
    alpha := alpha
    gamma := gamma }

/-- From `rl.rs`: `QLearningOptimizer::get_state_key`. -/
def QLearningOptimizer.get_state_key (z_score momentum : ℚ)
    (arb_available : Bool) : String :=
  let z_bucket := if z_score > 2 then "high" else if z_score < -2 then "low" else "mid"
  let m_bucket :=
    if momentum > 0.01 then "up" else if momentum < -0.01 then "down" else "flat"
  let arb_str := if arb_available then "yes" else "no"
  z_bucket ++ "_" ++ m_bucket ++ "_" ++ arb_str

/-- From `rl.rs`: `QLearningOptimizer::get_action`.  The two `thread_rng()` draws
are oracle inputs: `rand_eps` is the uniform sample compared with `epsilon`,
`rand_act` the random action (`gen_range(0..3)`).  `f64::NEG_INFINITY`, the
initial best-Q accumulator, is modelled as `⊥ : WithBot ℚ`. -/
def QLearningOptimizer.get_action (q : QLearningOptimizer) (z_score momentum : ℚ)
    (arb_available : Bool) (rand_eps : ℚ) (rand_act : ℕ) :
    ℕ × QLearningOptimizer :=
  let state := QLearningOptimizer.get_state_key z_score momentum arb_available
  let table :=
    match alookup q.q_table state with
    | some _ => q.q_table
    | none => ainsert q.q_table state [(0, 0), (1, 0), (2, 0)]
  let q := { q with q_table := table }
  let actions := (alookup table state).getD []
  if rand_eps < q.epsilon then (rand_act % 3, q)
  else
    let best :=
      actions.foldl
        (fun (acc : ℕ × WithBot ℚ) av =>
          if (av.2 : WithBot ℚ) > acc.2 then (av.1, (av.2 : WithBot ℚ)) else acc)
        (0, ⊥)
    (best.1, q)

/-- From `rl.rs`: `QLearningOptimizer::update`.  The empty-actions branch is
unreachable for tables created by `get_action` (three actions are always
inserted); there the source would fold `f64::NEG_INFINITY` through the update
arithmetic, modelled as a no-op. -/
def QLearningOptimizer.update (q : QLearningOptimizer) (z_score momentum : ℚ)
    (arb_available : Bool) (action : ℕ) (reward : ℚ) : QLearningOptimizer :=
  let state := QLearningOptimizer.get_state_key z_score momentum arb_available
  match alookup q.q_table state with
  | none => q
  | some actions =>
    let current := (alookup actions action).getD 0
    match (actions.map fun av => av.2).max? with
    | none => q
    | some max_future_q =>
      let new_q := current + q.alpha * (reward + q.gamma * max_future_q - current)
      { q with q_table := ainsert q.q_table state (ainsert actions action new_q) }

/-- From `arbitrage.rs`: the node identifier `format!("{}-YES", market_id)`. -/
def yesNode (market_id : String) : String := market_id ++ "-YES"

/-- From `arbitrage.rs`: the node identifier `format!("{}-NO", market_id)`. -/
def noNode (market_id : String) : String := market_id ++ "-NO"

/-- From `f64::MAX`, the initial Bellman-Ford distance of the source, as an exact
real constant. -/
noncomputable def f64MAX : ℝ := 2 ^ 1024 - 2 ^ 971

/-- From `arbitrage.rs`: `GraphArbitrageDetector`. -/
structure GraphArbitrageDetector where
  markets : List (String × MarketData)

/-- From `arbitrage.rs`: `GraphArbitrageDetector::new`. -/
def GraphArbitrageDetector.new : GraphArbitrageDetector := { markets := [] }

/-- From `arbitrage.rs`: `GraphArbitrageDetector::add_market`. -/
def GraphArbitrageDetector.add_market (g : GraphArbitrageDetector)
    (market : MarketData) : GraphArbitrageDetector :=
  { markets := ainsert g.markets market.id market }

/-- The loop body of `_build_price_graph` for one `(market_id, market)`
entry: add the YES→NO edge under the YES node, then the NO→YES edge under the
NO node (`graph.entry(..).or_insert_with(..).insert(..)`). -/
noncomputable def buildPriceStep (graph : List (String × List (String × ℝ)))
    (entry : String × MarketData) : List (String × List (String × ℝ)) :=
  let market_id := entry.1
  let market := entry.2
  let yes_weight := -Real.log (market.yes_price : ℝ)
  let no_weight := -Real.log (market.no_price : ℝ)
  let graph :=
    ainsert graph (yesNode market_id)
      (ainsert ((alookup graph (yesNode market_id)).getD [])
        (noNode market_id) yes_weight)
  ainsert graph (noNode market_id)
    (ainsert ((alookup graph (noNode market_id)).getD [])
      (yesNode market_id) no_weight)

/-- From `arbitrage.rs`: `GraphArbitrageDetector::_build_price_graph`.  Edge
weights are `-ln(price)`. -/
noncomputable def GraphArbitrageDetector._build_price_graph
    (g : GraphArbitrageDetector) : List (String × List (String × ℝ)) :=
  g.markets.foldl buildPriceStep []

/-- The edge list of a graph, in the nested iteration order of the source's
relaxation loops. -/
def graphEdges (graph : List (String × List (String × ℝ))) :
    List (String × String × ℝ) :=
  graph.foldr (fun un acc => (un.2.map fun vw => (un.1, vw.1, vw.2)) ++ acc) []

/-- Bellman-Ford working state of `_mmbf_algorithm`: the `dist` and `pred`
hash maps. -/
structure MmbfState where
  dist : List (String × ℝ)
  pred : List (String × Option String)

/-- From `*dist.get(u).unwrap_or(&f64::MAX)`. -/
noncomputable def dGet (dist : List (String × ℝ)) (node : String) : ℝ :=
  (alookup dist node).getD f64MAX

/-- One relaxation attempt of `_mmbf_algorithm` on one edge. -/
noncomputable def relaxStep (st : MmbfState) (e : String × String × ℝ) :
    MmbfState :=
  if dGet st.dist e.1 + e.2.2 < dGet st.dist e.2.1 then
    { dist := ainsert st.dist e.2.1 (dGet st.dist e.1 + e.2.2)
      pred := ainsert st.pred e.2.1 (some e.1) }
  else st

/-- One full pass of `_mmbf_algorithm` over every edge. -/
noncomputable def relaxPass (edges : List (String × String × ℝ))
    (st : MmbfState) : MmbfState :=
  edges.foldl relaxStep st

/-- The loop body of `GraphArbitrageDetector::_extract_cycle`, with explicit
fuel.  The fuel is only a recursion bound: `extractCycle` supplies
`pred.length + 1`, which is proved sufficient (the visited-set rule admits at
most one iteration per distinct key of `pred`). -/
def extractCycleGo (pred : List (String × Option String)) :
    ℕ → List String → List String → Option String → Option (List String)
  | 0, _, _, _ => none
  | fuel + 1, visited, cycle, current =>
    match current with
    | none => none
    | some curr =>
      if curr ∈ visited then
        match cycle.findIdx? (fun x => x = curr) with
        | none => none
        | some idx => some (cycle.drop idx)
      else
        match alookup pred curr with
        | none => none
        | some nxt => extractCycleGo pred fuel (curr :: visited) (cycle ++ [curr]) nxt

/-- Recursion measure for `extractCycleGo`: the number of distinct keys of
`pred` not yet visited. -/
def keysLeft (pred : List (String × Option String)) (visited : List String) : ℕ :=
  ((pred.map Prod.fst).toFinset \ visited.toFinset).card

/-- From `arbitrage.rs`: `GraphArbitrageDetector::_extract_cycle` (its `&self` is
unused by the source). -/
def extractCycle (pred : List (String × Option String)) (start : String) :
    Option (List String) :=
  extractCycleGo pred (pred.length + 1) [] [] (some start)

/-- The per-start body of `_mmbf_algorithm`: seed the start distance, relax
all edges `|V|` times, collect a cycle for every still-relaxable edge, then
reset `dist`/`pred` for the next start. -/
noncomputable def mmbfFromStart (graph : List (String × List (String × ℝ)))
    (edges : List (String × String × ℝ)) (st : MmbfState) (start : String) :
    List (List String) × MmbfState :=
  let st := { st with dist := ainsert st.dist start 0 }
  let st := (relaxPass edges)^[graph.length] st
  let cycles :=
    edges.foldl
      (fun acc e =>
        if dGet st.dist e.1 + e.2.2 < dGet st.dist e.2.1 then
          acc ++ (extractCycle st.pred e.2.1).toList
        else acc)
      []
  let st : MmbfState :=
    { dist := graph.foldl (fun d n => ainsert d n.1 f64MAX) st.dist
      pred := graph.foldl (fun p n => ainsert p n.1 none) st.pred }
  (cycles, st)

/-- From `arbitrage.rs`: `GraphArbitrageDetector::_mmbf_algorithm`. -/
noncomputable def mmbfAlgorithm (graph : List (String × List (String × ℝ))) :
    List (List String) :=
  let edges := graphEdges graph
  let st : MmbfState :=
    { dist := graph.foldl (fun d n => ainsert d n.1 f64MAX) []
      pred := graph.foldl (fun p n => ainsert p n.1 none) [] }
  (graph.foldl
      (fun (acc : List (List String) × MmbfState) n =>
        let r := mmbfFromStart graph edges acc.2 n.1
        (acc.1 ++ r.1, r.2))
      ([], st)).1

/-- From `arbitrage.rs`: `GraphArbitrageDetector::_parse_node`
(`rsplitn(2, '-')`: split at the last dash). -/
def parseNode (node : String) : Option (String × TokenType) :=
  let parts := node.splitOn "-"
  if parts.length < 2 then none
  else
    let suffix := parts.getLastD ""
    let market_id := "-".intercalate parts.dropLast
    if suffix = "YES" then some (market_id, TokenType.yes)
    else if suffix = "NO" then some (market_id, TokenType.no)
    else none

/-- From `arbitrage.rs`: `GraphArbitrageDetector::_cycle_to_opportunity`. -/
def GraphArbitrageDetector._cycle_to_opportunity (g : GraphArbitrageDetector)
    (cycle : List String) : Option ArbitrageOpportunity :=
  if cycle.length < 2 then none
  else
    let profit :=
      cycle.foldl
        (fun acc node =>
          match parseNode node with
          | none => acc
          | some (market_id, token_type) =>
            match alookup g.markets market_id with
            | none => acc
            | some market =>
              acc *
                (match token_type with
                 | TokenType.yes => market.yes_price
                 | TokenType.no => market.no_price))
        1
    let arb_profit := 1 - profit
    if arb_profit ≤ 0.001 then none
    else
      some
        { market_id := cycle.headD ""
          question := "Graph arbitrage"
          arb_type := ArbType.graphArbitrage
          profit := arb_profit
          roi_pct := arb_profit * 100
          confidence := 0.7
          yes_price := 0
          no_price := 0
          sum_price := profit
          liquidity := 0
          legs := none
          path := some cycle }

/-- From `arbitrage.rs`: `GraphArbitrageDetector::detect_arbitrage_cycles`. -/
noncomputable def GraphArbitrageDetector.detect_arbitrage_cycles
    (g : GraphArbitrageDetector) : List ArbitrageOpportunity :=
  let cycles := mmbfAlgorithm g._build_price_graph
  cycles.foldl (fun acc cycle => acc ++ (g._cycle_to_opportunity cycle).toList) []

/-- The weight `-ln(yes_price)` of the YES→NO edge of one market. -/
noncomputable def yesWeight (m : MarketData) : ℝ := -Real.log (m.yes_price : ℝ)

/-- The weight `-ln(no_price)` of the NO→YES edge of one market. -/
noncomputable def noWeight (m : MarketData) : ℝ := -Real.log (m.no_price : ℝ)

/-- Normal form of `_build_price_graph` on a market map with distinct ids:
each market contributes its YES node (one out-edge to its NO node) and its NO
node (one out-edge back).  Proved equal to `_build_price_graph` below. -/
noncomputable def pairGraph (markets : List (String × MarketData)) :
    List (String × List (String × ℝ)) :=
  markets.foldr
    (fun im acc =>
      (yesNode im.1, [(noNode im.1, yesWeight im.2)]) ::
        (noNode im.1, [(yesNode im.1, noWeight im.2)]) :: acc)
    []

/-- Normal form of the edge list of `pairGraph`. -/
noncomputable def pairEdges (markets : List (String × MarketData)) :
    List (String × String × ℝ) :=
  markets.foldr
    (fun im acc =>
      (yesNode im.1, noNode im.1, yesWeight im.2) ::
        (noNode im.1, yesNode im.1, noWeight im.2) :: acc)
    []

/-- Mid-relaxation invariant of the Bellman-Ford distances, for the component
of a start node `s` with partner `p` and forward weight `ws`: the start is at
`0`, the partner is still untouched or holds `ws`, every other node is
untouched. -/
def distInvariantI (s p : String) (ws : ℝ) (dist : List (String × ℝ)) : Prop :=
  dGet dist s = 0 ∧
    (dGet dist p = f64MAX ∨ (dGet dist p = ws ∧ ws < f64MAX)) ∧
    ∀ x, x ≠ s → x ≠ p → dGet dist x = f64MAX

/-- Post-sweep fixed point of the Bellman-Ford distances for the component of
`s`: the partner holds `ws` exactly when `ws` beats the `f64::MAX` sentinel. -/
def distInvariantF (s p : String) (ws : ℝ) (dist : List (String × ℝ)) : Prop :=
  dGet dist s = 0 ∧
    dGet dist p = (if ws < f64MAX then ws else f64MAX) ∧
    ∀ x, x ≠ s → x ≠ p → dGet dist x = f64MAX

/-- All Bellman-Ford distances read as the `f64::MAX` sentinel (the state
between two start nodes, and the initial state). -/
def distAllMax (dist : List (String × ℝ)) : Prop :=
  ∀ x, dGet dist x = f64MAX

/-- Shape of the edge list seen from a start node `s` with partner `p`: all
weights positive, and every edge is the `s→p` edge, the `p→s` edge, or has
both endpoints outside `{s, p}`. -/
def goodEdges (s p : String) (ws wp : ℝ)
    (E : List (String × String × ℝ)) : Prop :=
  s ≠ p ∧ 0 < ws ∧ 0 < wp ∧ (s, p, ws) ∈ E ∧
    ∀ e ∈ E, 0 < e.2.2 ∧
      (e = (s, p, ws) ∨ e = (p, s, wp) ∨
        (e.1 ≠ s ∧ e.1 ≠ p ∧ e.2.1 ≠ s ∧ e.2.1 ≠ p))

/-- From `market.rs`: `MarketManager` (price history, config and websocket state
omitted: the orchestrator only reads `markets`, and no claim mentions them). -/
structure MarketManager where
  markets : List (String × MarketData)

/-- From `lib.rs`: `StepResult`. -/
structure StepResult where
  step : ℕ
  opportunities : ℕ
  trades : ℕ
  profit : ℚ
  capital : ℚ
  win_rate : ℚ

/-- From `lib.rs`: `HftArbitrageBot` (the optional network API client is omitted:
it is never consulted by `run_step`). -/
structure HftArbitrageBot where
  config : BotConfig
  arb_detector : ArbitrageDetector
  graph_detector : GraphArbitrageDetector
  optimizer : StatisticalArbOptimizer
  portfolio_optimizer : IpPortfolioOptimizer
  rl_agent : QLearningOptimizer
  executor : TradeExecutor
  mev_extractor : MevDetector
  market_manager : MarketManager
  risk_manager : RiskManager
  position_sizer : PositionSizer
  capital : ℚ
  initial_capital : ℚ
  current_step : ℕ

/-- From `lib.rs`: `HftArbitrageBot::new`. -/
def HftArbitrageBot.new (config : BotConfig) : HftArbitrageBot :=
  { config := config
    arb_detector := ArbitrageDetector.new config.min_profit_threshold 1000
    graph_detector := GraphArbitrageDetector.new
    optimizer := StatisticalArbOptimizer.new
    portfolio_optimizer := { max_portfolio_size := 10 }
    rl_agent := QLearningOptimizer.new 0.1 0.95 0.1
    executor := TradeExecutor.new config
    mev_extractor := { block_time_window := if config.enable_mev then 1000 else 0 }
    market_manager := { markets := [] }
    risk_manager := RiskManager.new 50 10 0.15 0.10 0.20 10
    position_sizer := PositionSizer.new 0.25 0.05 10
    capital := config.initial_capital
    initial_capital := config.initial_capital
    current_step := 0 }

/-- The oracle inputs of one cycle: the outcome of the snapshot refresh
(`market_manager.update_prices().await?` — an external, fallible effect whose
success carries the refreshed market map), the sampled execution slippage, and
the two random draws of the epsilon-greedy policy. -/
structure StepOracle where
  fetch : Except String (List (String × MarketData))
  slippage : ℚ
  rand_eps : ℚ
  rand_act : ℕ

/-- The trade count a caller observes from a cycle outcome (`0` when the cycle
failed). -/
def stepTrades (res : Except String StepResult) : ℕ :=
  match res with
  | Except.ok r => r.trades
  | Except.error _ => 0

/-- The realized profit a caller observes from a cycle outcome (`0` when the
cycle failed). -/
def stepProfit (res : Except String StepResult) : ℚ :=
  match res with
  | Except.ok r => r.profit
  | Except.error _ => 0

/-- From `lib.rs`: `HftArbitrageBot::run_step`.  The mutated `self` is returned as
the first component; the second is the `Result<StepResult, String>` of the
source. -/
noncomputable def HftArbitrageBot.run_step (bot : HftArbitrageBot)
    (o : StepOracle) : HftArbitrageBot × Except String StepResult :=
  let bot := { bot with current_step := bot.current_step + 1 }
  match o.fetch with
  | Except.error e => (bot, Except.error e)
  | Except.ok refreshed =>
    let bot := { bot with market_manager := { markets := refreshed } }
    let markets := bot.market_manager.markets.map fun kv => kv.2
    let simple_arbs := bot.arb_detector.scan_markets markets
    let graph_arbs := bot.graph_detector.detect_arbitrage_cycles
    let all_opportunities := simple_arbs ++ graph_arbs
    if all_opportunities.isEmpty then
      (bot,
        Except.ok
          { step := bot.current_step
            opportunities := 0
            trades := 0
            profit := 0
            capital := bot.capital
            win_rate := 0 })
    else
      let optimized :=
        bot.optimizer.optimize_arbitrage_pairs all_opportunities bot.capital
      let projected := bot.optimizer.bregman_projection optimized
      match projected with
      | [] =>
        (bot,
          Except.ok
            { step := bot.current_step
              opportunities := all_opportunities.length
              trades := 0
              profit := 0
              capital := bot.capital
              win_rate := 0 })
      | top :: _ =>
        if ¬ bot.risk_manager.can_trade bot.capital then
          (bot,
            Except.ok
              { step := bot.current_step
                opportunities := all_opportunities.length
                trades := 0
                profit := 0
                capital := bot.capital
                win_rate := 0 })
        else
          let exec := bot.executor.execute_arbitrage top bot.capital o.slippage
          let trade := exec.1
          let executor := exec.2
          let profit := (trade.map fun t => t.profit).getD 0
          let capital := bot.capital + profit
          let risk_manager := bot.risk_manager.update profit capital
          let rl_agent :=
            match trade with
            | some t =>
              let reward : ℚ := if t.profit > 0 then 1 else -1
              let z_score : ℚ := if 1 - top.sum_price > 0.02 then 2.5 else 0.5
              let momentum : ℚ := 0.01
              let ga :=
                bot.rl_agent.get_action z_score momentum true o.rand_eps o.rand_act
              ga.2.update z_score momentum true ga.1 reward
            | none => bot.rl_agent
          let trades : ℕ := if trade.isSome then 1 else 0
          ({ bot with
              capital := capital
              risk_manager := risk_manager
              rl_agent := rl_agent
              executor := executor },
            Except.ok
              { step := bot.current_step
                opportunities := all_opportunities.length
                trades := trades
                profit := profit
                capital := capital
                win_rate := (executor.executed_trades.length : ℚ) })

/-! ### Association-list lemmas -/

theorem alookup_ainsert_self [DecidableEq κ] (l : List (κ × ν)) (k : κ) (v : ν) :
    alookup (ainsert l k v) k = some v := by
  induction l with
  | nil => simp [ainsert, alookup]
  | cons kv rest ih =>
    by_cases h : kv.1 = k
    · simp [ainsert, alookup, h]
    · simpa [ainsert, alookup, h] using ih

theorem alookup_ainsert_ne [DecidableEq κ] (l : List (κ × ν)) (k k' : κ) (v : ν)
    (h : k' ≠ k) : alookup (ainsert l k v) k' = alookup l k' := by
  induction l with
  | nil => simp [ainsert, alookup, Ne.symm h]
  | cons kv rest ih =>
    by_cases hk : kv.1 = k
    · subst hk
      simp [ainsert, alookup, Ne.symm h]
    · by_cases hk' : kv.1 = k'
      · simp [ainsert, alookup, hk, hk', h]
      · simpa [ainsert, alookup, hk, hk', h] using ih

theorem mem_keys_of_alookup_eq_some [DecidableEq κ] {l : List (κ × ν)} {k : κ}
    {v : ν} (h : alookup l k = some v) : k ∈ l.map Prod.fst := by
  induction l with
  | nil => simp [alookup] at h
  | cons kv rest ih =>
    by_cases hk : kv.1 = k
    · simp [hk]
    · simp only [alookup, hk, if_false] at h
      simpa using Or.inr (ih h)

theorem alookup_eq_none_of_not_mem_keys [DecidableEq κ] {l : List (κ × ν)}
    {k : κ} (h : k ∉ l.map Prod.fst) : alookup l k = none := by
  induction l with
  | nil => rfl
  | cons kv rest ih =>
    simp only [List.map_cons, List.mem_cons, not_or] at h
    simp only [alookup]
    rw [if_neg fun hh => h.1 hh.symm]
    exact ih h.2

/-! ### C10 — the Simple Scanner constructor ignores its `min_profit` argument -/

/-- C10: for every value passed as `min_profit`, `ArbitrageDetector::new`
produces a detector whose `min_profit` field is `0.005`; the parameter is
ignored, so it has no effect on the Simple Scanner's behaviour. -/
theorem C10_new_ignores_min_profit :
    ∀ mp mp' ml : ℚ,
      ArbitrageDetector.new mp ml = ArbitrageDetector.new mp' ml ∧
      (ArbitrageDetector.new mp ml).min_profit = 0.005 ∧
      (ArbitrageDetector.new mp ml).min_liquidity = ml ∧
      ∀ m, (ArbitrageDetector.new mp ml).detect_yes_no_arbitrage m =
        (ArbitrageDetector.new mp' ml).detect_yes_no_arbitrage m :=
  fun _ _ _ => ⟨rfl, rfl, rfl, fun _ => rfl⟩

/-! ### C2 — the Simple Scanner's acceptance condition and profit -/

/-- C2: `detect_yes_no_arbitrage` returns no opportunity exactly when
`price_yes + price_no ≥ 1`, or `1 − sum < min_profit`, or
`liquidity_yes + liquidity_no < min_liquidity`; any returned opportunity has
`profit = 1 − (price_yes + price_no)`. -/
theorem C2_detect_yes_no_arbitrage_cases :
    ∀ (d : ArbitrageDetector) (m : MarketData),
      (d.detect_yes_no_arbitrage m = none ↔
        (m.yes_price + m.no_price ≥ 1 ∨
         1 - (m.yes_price + m.no_price) < d.min_profit ∨
         m.yes_liquidity + m.no_liquidity < d.min_liquidity)) ∧
      ∀ opp, d.detect_yes_no_arbitrage m = some opp →
        opp.profit = 1 - (m.yes_price + m.no_price) := by
  intro d m
  simp only [ArbitrageDetector.detect_yes_no_arbitrage]
  split_ifs with h1 h2 h3
  · exact ⟨by simp [h1], by simp⟩
  · exact ⟨by simp [h2], by simp⟩
  · exact ⟨by simp [h3], by simp⟩
  · refine ⟨by simp [h1, h2, h3], ?_⟩
    intro opp hopp
    cases hopp
    rfl

/-- Witness for C2 at a concrete rejected snapshot (`0.6 + 0.6 ≥ 1`). -/
theorem C2_witness :
    ArbitrageDetector.detect_yes_no_arbitrage
      { min_profit := 0.005, min_liquidity := 0 }
      { id := "m", question := "q", yes_price := 0.6, no_price := 0.6,
        yes_liquidity := 0, no_liquidity := 0, volume_24h := 0 } = none :=
  (C2_detect_yes_no_arbitrage_cases
    { min_profit := 0.005, min_liquidity := 0 }
    { id := "m", question := "q", yes_price := 0.6, no_price := 0.6,
      yes_liquidity := 0, no_liquidity := 0, volume_24h := 0 }).1.mpr
    (Or.inl (by norm_num))

/-! ### C4 — the VWAP tracker's buffer is shared by both sides -/

/-- C4 counterexample: the tracker's per-instrument buffer is shared by both
token sides, so twenty NO-side updates evict a YES-side price even though the
YES side has seen only one price (far below the window of 20).  A per-side
FIFO buffer, as the claim states, would still retain the YES price and
`get_vwap` would return `some 0.25`; the code returns `none`. -/
theorem C4_counterexample :
    (((List.replicate 20 ()).foldl
        (fun t _ => t.update "M" TokenType.no 0.5)
        ((VwapTracker.new 20).update "M" TokenType.yes 0.25)).get_vwap
      "M" TokenType.yes = none) ∧
    ((VwapTracker.new 20).update "M" TokenType.yes 0.25).get_vwap
      "M" TokenType.yes = some 0.25 := by
  constructor
  · rfl
  · simp only [VwapTracker.new, VwapTracker.update, VwapTracker.get_vwap,
      alookup, ainsert]
    norm_num

/-- C4 (amended): the tracker keeps one per-instrument buffer, shared by both
sides, bounded to the window size with FIFO eviction on update (so updates to
one side can evict the other side's prices); `get_vwap` returns the arithmetic
mean of the retained prices of exactly the requested instrument and side, or
nothing if none are retained; instruments other than the updated one are
untouched. -/
theorem C4_vwap_shared_buffer :
    ∀ (t : VwapTracker) (mid : String) (tt : TokenType) (p : ℚ),
      (∀ k h, alookup t.price_history k = some h → h.length ≤ t.window_size) →
      ((∀ k h, alookup (t.update mid tt p).price_history k = some h →
          h.length ≤ t.window_size) ∧
        (t.update mid tt p).window_size = t.window_size ∧
        (∀ k, k ≠ mid →
          alookup (t.update mid tt p).price_history k =
            alookup t.price_history k) ∧
        (alookup (t.update mid tt p).price_history mid =
          some
            (if ((alookup t.price_history mid).getD [] ++ [(tt, p)]).length >
                t.window_size
             then ((alookup t.price_history mid).getD [] ++ [(tt, p)]).tail
             else (alookup t.price_history mid).getD [] ++ [(tt, p)])) ∧
        (∀ mid' tt' v,
          t.get_vwap mid' tt' = some v ↔
            sidePrices t mid' tt' ≠ [] ∧
              v = (sidePrices t mid' tt').sum / ((sidePrices t mid' tt').length : ℚ))) := by
  intro t mid tt p hbound
  refine ⟨?_, rfl, ?_, ?_, ?_⟩
  · intro k h hk
    by_cases hkm : k = mid
    · subst hkm
      simp only [VwapTracker.update, alookup_ainsert_self] at hk
      cases hk
      rcases hh : alookup t.price_history k with _ | h₀
      · simp only [hh, Option.getD_none, List.nil_append]
        split
        · next hlen => simp
        · next hlen =>
          simp only [List.length_cons, List.length_nil] at hlen ⊢
          omega
      · have hb := hbound k h₀ hh
        simp only [hh, Option.getD_some]
        split
        · next hlen =>
          simp only [List.length_tail, List.length_append, List.length_singleton]
          omega
        · next hlen =>
          simp only [List.length_append, List.length_singleton] at hlen ⊢
          omega
    · simp only [VwapTracker.update] at hk
      rw [alookup_ainsert_ne _ _ _ _ hkm] at hk
      exact hbound k h hk
  · intro k hk
    simp only [VwapTracker.update]
    exact alookup_ainsert_ne _ _ _ _ hk
  · simp only [VwapTracker.update]
    rw [alookup_ainsert_self]
  · intro mid' tt' v
    rw [VwapTracker.get_vwap, sidePrices]
    rcases hh : alookup t.price_history mid' with _ | h₀
    · simp [hh]
    · simp only [hh, Option.getD_some]
      by_cases hemp : h₀.filter (fun e => decide (e.1 = tt')) = []
      · simp [hemp]
      · simp only [List.isEmpty_iff, hemp, if_false, List.length_map,
          List.map_eq_nil_iff, ne_eq, Option.some_inj]
        constructor
        · intro hv
          exact ⟨not_false, hv.symm⟩
        · intro hv
          exact hv.2.symm

/-- Witness for the amended C4 at a concrete tracker (the empty-history bound
hypothesis is discharged). -/
theorem C4_vwap_shared_buffer_witness :
    ((VwapTracker.new 20).update "M" TokenType.yes 0.25).window_size = 20 :=
  (C4_vwap_shared_buffer (VwapTracker.new 20) "M" TokenType.yes 0.25
    (fun k h hk => by simp [VwapTracker.new, alookup] at hk)).2.1

/-! ### C7 — VaR₉₅ -/

/-- C7: `calculate_var_95` is exactly `0` on fewer than 20 history samples;
otherwise it is the negative of the element at index
`⌊0.95 · count⌋` of the ascending-sorted list of the history's negative
samples (`0` if that index is out of bounds).  The sorted list is
characterized by permutation + sortedness, not by the sorting routine. -/
theorem C7_var95_spec :
    ∀ rm : RiskManager,
      (rm.trade_history.length < 20 → rm.calculate_var_95 = 0) ∧
      (20 ≤ rm.trade_history.length →
        ∀ l : List ℚ,
          l.Perm (rm.trade_history.filter fun p => decide (p < 0)) →
          l.Sorted (· ≤ ·) →
          rm.calculate_var_95 =
            if h : (((l.length : ℚ) * 0.95).floor).toNat < l.length
            then -(l.get ⟨(((l.length : ℚ) * 0.95).floor).toNat, h⟩)
            else 0) := by
  intro rm
  constructor
  · intro h
    rw [RiskManager.calculate_var_95, if_pos h]
  · intro h l hperm hsorted
    have hsorted' :
        (List.insertionSort (fun a b : ℚ => a ≤ b)
          (rm.trade_history.filter fun p => decide (p < 0))).Sorted
          (fun a b : ℚ => a ≤ b) :=
      List.sorted_insertionSort _ _
    have hl : l = List.insertionSort (fun a b : ℚ => a ≤ b)
        (rm.trade_history.filter fun p => decide (p < 0)) :=
      List.eq_of_perm_of_sorted
        (hperm.trans (List.perm_insertionSort _ _).symm) hsorted hsorted'
    simp only [RiskManager.calculate_var_95]
    rw [if_neg (by omega)]
    rw [hl]

/-- Witness for C7 at a concrete manager with a 3-element history. -/
theorem C7_var95_witness :
    RiskManager.calculate_var_95
      { metrics :=
          { var_95 := 0, daily_loss_limit := 50, max_consecutive_losses := 5,
            max_drawdown := 0.15, current_drawdown := 0, sharpe_ratio := 0 },
        trade_history := [-1, 2, -3], consecutive_losses := 0, daily_loss := 0,
        peak_capital := 0, low_capital := 0 } = 0 :=
  (C7_var95_spec
    { metrics :=
        { var_95 := 0, daily_loss_limit := 50, max_consecutive_losses := 5,
          max_drawdown := 0.15, current_drawdown := 0, sharpe_ratio := 0 },
      trade_history := [-1, 2, -3], consecutive_losses := 0, daily_loss := 0,
      peak_capital := 0, low_capital := 0 }).1 (by decide)

/-! ### C6 — the risk gate -/

theorem can_trade_false_iff (rm : RiskManager) (c : ℚ) :
    rm.can_trade c = false ↔
      (rm.metrics.daily_loss_limit ≤ rm.daily_loss ∨
       rm.metrics.max_consecutive_losses ≤ rm.consecutive_losses ∨
       rm.metrics.max_drawdown ≤ rm.metrics.current_drawdown) := by
  simp only [RiskManager.can_trade]
  split_ifs with h1 h2 h3
  · simp [h1]
  · simp [h1, h2]
  · simp [h1, h2, h3]
  · simp [h1, h2, h3]

theorem update_max_consecutive (rm : RiskManager) (p c : ℚ) :
    (rm.update p c).metrics.max_consecutive_losses =
      rm.metrics.max_consecutive_losses := rfl

theorem update_consecutive_of_neg (rm : RiskManager) (p c : ℚ) (hp : p < 0) :
    (rm.update p c).consecutive_losses = rm.consecutive_losses + 1 := by
  simp only [RiskManager.update]
  rw [if_pos hp]

theorem foldl_update_consecutive :
    ∀ (l : List (ℚ × ℚ)) (rm : RiskManager), (∀ u ∈ l, u.1 < 0) →
      (l.foldl (fun (r : RiskManager) u => r.update u.1 u.2) rm).consecutive_losses =
          rm.consecutive_losses + l.length ∧
      (l.foldl (fun (r : RiskManager) u => r.update u.1 u.2) rm).metrics.max_consecutive_losses =
          rm.metrics.max_consecutive_losses := by
  intro l
  induction l with
  | nil => intro rm _; simp
  | cons u rest ih =>
    intro rm hneg
    have h1 := update_consecutive_of_neg rm u.1 u.2 (hneg u (by simp))
    have h2 := ih (rm.update u.1 u.2) fun v hv => hneg v (by simp [hv])
    simp only [List.foldl_cons, List.length_cons]
    refine ⟨?_, ?_⟩
    · rw [h2.1, h1]; omega
    · rw [h2.2, update_max_consecutive]

/-- C6: `can_trade()` is `false` exactly when `daily_loss ≥ daily_loss_limit`,
or `consecutive_losses ≥ max_consecutive_losses`, or
`drawdown ≥ max_drawdown`; and with `max_consecutive_losses = 5`, after any 5
consecutive negative-profit updates `can_trade()` is `false` regardless of the
capitals supplied. -/
theorem C6_can_trade_gate :
    ∀ (rm : RiskManager) (c : ℚ),
      (rm.can_trade c = false ↔
        (rm.metrics.daily_loss_limit ≤ rm.daily_loss ∨
         rm.metrics.max_consecutive_losses ≤ rm.consecutive_losses ∨
         rm.metrics.max_drawdown ≤ rm.metrics.current_drawdown)) ∧
      ∀ updates : List (ℚ × ℚ),
        rm.metrics.max_consecutive_losses = 5 →
        updates.length = 5 →
        (∀ u ∈ updates, u.1 < 0) →
        (updates.foldl (fun (r : RiskManager) u => r.update u.1 u.2) rm).can_trade c = false := by
  intro rm c
  refine ⟨can_trade_false_iff rm c, ?_⟩
  intro updates h5 hlen hneg
  have hfold := foldl_update_consecutive updates rm hneg
  rw [can_trade_false_iff]
  refine Or.inr (Or.inl ?_)
  rw [hfold.2, h5, hfold.1, hlen]
  omega

/-- Witness for C6: five −1-profit updates on a fresh manager with
`max_consecutive_losses = 5` close the gate. -/
theorem C6_can_trade_gate_witness :
    ((List.replicate 5 ((-1 : ℚ), (100 : ℚ))).foldl
        (fun (r : RiskManager) u => r.update u.1 u.2)
        { metrics :=
            { var_95 := 0, daily_loss_limit := 50, max_consecutive_losses := 5,
              max_drawdown := 0.15, current_drawdown := 0, sharpe_ratio := 0 },
          trade_history := [], consecutive_losses := 0, daily_loss := 0,
          peak_capital := 0, low_capital := 0 }).can_trade 1000 = false :=
  (C6_can_trade_gate
    { metrics :=
        { var_95 := 0, daily_loss_limit := 50, max_consecutive_losses := 5,
          max_drawdown := 0.15, current_drawdown := 0, sharpe_ratio := 0 },
      trade_history := [], consecutive_losses := 0, daily_loss := 0,
      peak_capital := 0, low_capital := 0 } 1000).2
    (List.replicate 5 (-1, 100)) rfl rfl (by decide)

/-! ### C8 — cycle extraction terminates -/

theorem keysLeft_lt (pred : List (String × Option String)) (visited : List String)
    (curr : String) (hmem : curr ∈ pred.map Prod.fst) (hnv : curr ∉ visited) :
    keysLeft pred (curr :: visited) < keysLeft pred visited := by
  unfold keysLeft
  apply Finset.card_lt_card
  rw [List.toFinset_cons]
  constructor
  · exact Finset.sdiff_subset_sdiff (le_refl _) (Finset.subset_insert _ _)
  · intro hsub
    have hc : curr ∈ (pred.map Prod.fst).toFinset \ visited.toFinset := by
      simp [List.mem_toFinset, hmem, hnv]
    have := hsub hc
    simp at this

theorem extractCycleGo_fuel_eq (pred : List (String × Option String)) :
    ∀ (f₁ f₂ : ℕ) (visited cycle : List String) (cur : Option String),
      keysLeft pred visited < f₁ → keysLeft pred visited < f₂ →
      extractCycleGo pred f₁ visited cycle cur =
        extractCycleGo pred f₂ visited cycle cur := by
  intro f₁
  induction f₁ with
  | zero => intro f₂ visited cycle cur h1 _; omega
  | succ f ih =>
    intro f₂ visited cycle cur h1 h2
    cases f₂ with
    | zero => omega
    | succ g =>
      cases cur with
      | none => simp [extractCycleGo]
      | some curr =>
        by_cases hv : curr ∈ visited
        · simp [extractCycleGo, hv]
        · rcases hlk : alookup pred curr with _ | nxt
          · simp [extractCycleGo, hv, hlk]
          · have hm : curr ∈ pred.map Prod.fst := mem_keys_of_alookup_eq_some hlk
            have hlt := keysLeft_lt pred visited curr hm hv
            simp only [extractCycleGo, hv, if_false, hlk]
            exact ih g (curr :: visited) (cycle ++ [curr]) nxt
              (by omega) (by omega)

/-- C8: cycle extraction terminates for every predecessor map and start — the
visited-set rule bounds the walk by the number of distinct keys, so any fuel
of at least `pred.length + 1` computes the same (stable) answer — and on the
2-node bidirectional predecessor map it reconstructs the 2-element cycle
`["A", "B"]` rather than looping forever. -/
theorem C8_extract_cycle_terminates :
    ∀ (pred : List (String × Option String)) (start : String) (fuel : ℕ),
      pred.length + 1 ≤ fuel →
      (extractCycleGo pred fuel [] [] (some start) = extractCycle pred start ∧
        extractCycle [("A", some "B"), ("B", some "A")] "A" = some ["A", "B"]) := by
  intro pred start fuel hfuel
  constructor
  · have hcard : keysLeft pred [] ≤ pred.length := by
      unfold keysLeft
      calc ((pred.map Prod.fst).toFinset \ ([] : List String).toFinset).card
          ≤ (pred.map Prod.fst).toFinset.card :=
            Finset.card_le_card (Finset.sdiff_subset)
        _ ≤ (pred.map Prod.fst).length := List.toFinset_card_le _
        _ = pred.length := List.length_map _ _
    exact extractCycleGo_fuel_eq pred fuel (pred.length + 1) [] [] (some start)
      (by omega) (by omega)
  · decide

/-- Witness for C8 at the concrete 2-node map with surplus fuel. -/
theorem C8_extract_cycle_terminates_witness :
    extractCycleGo [("A", some "B"), ("B", some "A")] 7 [] [] (some "A") =
      extractCycle [("A", some "B"), ("B", some "A")] "A" :=
  (C8_extract_cycle_terminates [("A", some "B"), ("B", some "A")] "A" 7
    (by decide)).1

/-! ### C3 — a failed snapshot fetch -/

/-- C3 counterexample: the cycle counter is NOT unchanged when the snapshot
fetch fails — `run_step` increments `current_step` before the fallible fetch,
so a failing fetch still bumps it (here from `0` to `1`). -/
theorem C3_counterexample :
    ((HftArbitrageBot.new
          { initial_capital := 1000, min_profit_threshold := 0.01,
            risk_per_trade := 0.02, max_position_size := 0.5,
            enable_mev := false, use_real_data := false }).run_step
        { fetch := Except.error "network down", slippage := 0, rand_eps := 0,
          rand_act := 0 }).1.current_step ≠
      (HftArbitrageBot.new
          { initial_capital := 1000, min_profit_threshold := 0.01,
            risk_per_trade := 0.02, max_position_size := 0.5,
            enable_mev := false, use_real_data := false }).current_step := by
  simp [HftArbitrageBot.run_step, HftArbitrageBot.new]

/-- C3 (amended): when the snapshot fetch fails, `run_step` returns the
failure to the caller and mutates no engine state other than the cycle
counter, which is incremented before the fetch: capital, the risk manager,
the executor's ledger, the adaptive-policy table and the market cache are all
unchanged. -/
theorem C3_failed_fetch_aborts_cycle :
    ∀ (bot : HftArbitrageBot) (e : String) (slippage rand_eps : ℚ)
      (rand_act : ℕ),
      bot.run_step
          { fetch := Except.error e, slippage := slippage,
            rand_eps := rand_eps, rand_act := rand_act } =
        ({ bot with current_step := bot.current_step + 1 }, Except.error e) :=
  fun _ _ _ _ _ => rfl

/-! ### C1 — at most one trade and exactly one capital mutation per cycle -/

theorem execute_arbitrage_cases (e : TradeExecutor)
    (opp : ArbitrageOpportunity) (cap slip : ℚ) :
    ((e.execute_arbitrage opp cap slip).1 = none ∧
        (e.execute_arbitrage opp cap slip).2 = e) ∨
      ∃ t, (e.execute_arbitrage opp cap slip).1 = some t ∧
        (e.execute_arbitrage opp cap slip).2 =
          { e with executed_trades := e.executed_trades ++ [t] } := by
  simp only [TradeExecutor.execute_arbitrage]
  split_ifs with h
  · exact Or.inl ⟨rfl, rfl⟩
  · exact Or.inr ⟨_, rfl, rfl⟩

/-- C1: in every cycle of `run_step`, the number of executed trades is 0 or 1;
the engine's capital after the cycle equals the capital before plus the
reported profit, and that profit is exactly the sum of the profits of the
trades appended to the execution ledger in this cycle (in particular `0`, with
capital unchanged, when no trade executes).  No other capital mutation
occurs. -/
theorem C1_one_trade_one_capital_mutation :
    ∀ (bot : HftArbitrageBot) (o : StepOracle),
      stepTrades (bot.run_step o).2 ≤ 1 ∧
      (bot.run_step o).1.capital = bot.capital + stepProfit (bot.run_step o).2 ∧
      (bot.run_step o).1.executor.executed_trades.length =
        bot.executor.executed_trades.length + stepTrades (bot.run_step o).2 ∧
      stepProfit (bot.run_step o).2 =
        (((bot.run_step o).1.executor.executed_trades.drop
            bot.executor.executed_trades.length).map fun t => t.profit).sum := by
  intro bot o
  rcases o with ⟨fetch, slip, reps, ract⟩
  cases fetch with
  | error e =>
    simp [HftArbitrageBot.run_step, stepTrades, stepProfit, List.drop_length]
  | ok refreshed =>
    simp only [HftArbitrageBot.run_step]
    split
    · simp [stepTrades, stepProfit, List.drop_length]
    · split
      · simp [stepTrades, stepProfit, List.drop_length]
      · split
        · simp [stepTrades, stepProfit, List.drop_length]
        · rename_i top tail heq hcan
          rcases execute_arbitrage_cases bot.executor top bot.capital slip with
            ⟨h1, h2⟩ | ⟨t, h1, h2⟩
          · simp [h1, h2, stepTrades, stepProfit, ← List.map_drop,
              List.drop_length]
          · simp [h1, h2, stepTrades, stepProfit, ← List.map_drop,
              List.drop_left]

/-! ### C5 — the Optimizer's filter, ranking, stability and cap -/

theorem mem_optScored (o : StatisticalArbOptimizer)
    (opps : List ArbitrageOpportunity) (x : ℕ × ℝ × ArbitrageOpportunity)
    (hx : x ∈ optScored o opps) :
    x.2.1 = oppScore x.2.2 ∧ x.2.2 ∈ opps.filter (optFilter o) := by
  rcases List.mem_map.mp hx with ⟨p, hp, rfl⟩
  exact ⟨rfl, List.snd_mem_of_mem_enum hp⟩

theorem mem_optSorted (o : StatisticalArbOptimizer)
    (opps : List ArbitrageOpportunity) (x : ℕ × ℝ × ArbitrageOpportunity)
    (hx : x ∈ optSorted o opps) :
    x.2.1 = oppScore x.2.2 ∧ x.2.2 ∈ opps.filter (optFilter o) :=
  mem_optScored o opps x ((List.perm_insertionSort scoredRel _).mem_iff.mp hx)

/-- C5: the Optimizer returns at most `max_pairs` opportunities; every
returned opportunity is an element of the input passing the filter
`roi_pct > 1 ∧ liquidity ≥ min_liquidity`; the output is sorted in descending
order of the score `roi_pct · confidence · √liquidity / 100`; and any two
scored entries with equal score keep their original relative (discovery)
order through the sort (stability). -/
theorem C5_optimize_arbitrage_pairs_spec :
    ∀ (o : StatisticalArbOptimizer) (opps : List ArbitrageOpportunity) (cap : ℚ),
      (o.optimize_arbitrage_pairs opps cap).length ≤ o.max_pairs ∧
      (∀ r ∈ o.optimize_arbitrage_pairs opps cap,
        r ∈ opps ∧ r.roi_pct > 1 ∧ r.liquidity ≥ o.min_liquidity) ∧
      (o.optimize_arbitrage_pairs opps cap).Pairwise
        (fun a b => oppScore b ≤ oppScore a) ∧
      (∀ x y : ℕ × ℝ × ArbitrageOpportunity,
        [x, y].Sublist (optScored o opps) → x.2.1 = y.2.1 →
        [x, y].Sublist (optSorted o opps)) := by
  intro o opps cap
  refine ⟨?_, ?_, ?_, ?_⟩
  · simp only [StatisticalArbOptimizer.optimize_arbitrage_pairs]
    split
    · simp
    · split
      · simp
      · simp [List.length_take_le]
  · intro r hr
    simp only [StatisticalArbOptimizer.optimize_arbitrage_pairs] at hr
    split at hr
    · simp at hr
    · split at hr
      · simp at hr
      · rcases List.mem_map.mp hr with ⟨x, hx, rfl⟩
        have hx' : x ∈ optSorted o opps := (List.take_sublist _ _).subset hx
        have hmem := (mem_optSorted o opps x hx').2
        have hin := List.mem_filter.mp hmem
        refine ⟨hin.1, ?_, ?_⟩
        · have := hin.2
          simp only [optFilter, Bool.and_eq_true, decide_eq_true_eq] at this
          exact this.1
        · have := hin.2
          simp only [optFilter, Bool.and_eq_true, decide_eq_true_eq] at this
          exact this.2
  · simp only [StatisticalArbOptimizer.optimize_arbitrage_pairs]
    split
    · simp
    · split
      · simp
      · have hs : (optSorted o opps).Pairwise scoredRel :=
          List.sorted_insertionSort scoredRel (optScored o opps)
        have ht : ((optSorted o opps).take o.max_pairs).Pairwise scoredRel :=
          List.Pairwise.sublist (List.take_sublist _ _) hs
        rw [List.pairwise_map]
        refine ht.imp_of_mem ?_
        intro a b ha hb hab
        have ha' := mem_optSorted o opps a ((List.take_sublist _ _).subset ha)
        have hb' := mem_optSorted o opps b ((List.take_sublist _ _).subset hb)
        rw [← ha'.1, ← hb'.1]
        exact hab
  · intro x y hsub heq
    exact List.pair_sublist_insertionSort (le_of_eq heq.symm) hsub

/-- Witness for C5 at a concrete optimizer and input. -/
theorem C5_optimize_arbitrage_pairs_witness :
    (StatisticalArbOptimizer.new.optimize_arbitrage_pairs [] 0).length ≤
      StatisticalArbOptimizer.new.max_pairs :=
  (C5_optimize_arbitrage_pairs_spec StatisticalArbOptimizer.new [] 0).1

/-! ### C9 — graph lemmas: node names and the built graph's normal form -/

theorem yesNode_inj {a b : String} (h : yesNode a = yesNode b) : a = b := by
  have hd := congrArg String.data h
  simp only [yesNode, String.data_append] at hd
  exact String.ext (List.append_cancel_right hd)

theorem noNode_inj {a b : String} (h : noNode a = noNode b) : a = b := by
  have hd := congrArg String.data h
  simp only [noNode, String.data_append] at hd
  exact String.ext (List.append_cancel_right hd)

theorem yesNode_ne_noNode (a b : String) : yesNode a ≠ noNode b := by
  intro h
  have hd := congrArg String.data h
  simp only [yesNode, noNode, String.data_append] at hd
  have h1 := congrArg List.getLast? hd
  rw [List.getLast?_append, List.getLast?_append] at h1
  simp at h1

theorem f64MAX_pos : (0 : ℝ) < f64MAX := by
  have h : (2 : ℝ) ^ 971 < 2 ^ 1024 := by
    apply pow_lt_pow_right₀ one_lt_two
    omega
  simp only [f64MAX]
  linarith

theorem dGet_ainsert_self (d : List (String × ℝ)) (k : String) (v : ℝ) :
    dGet (ainsert d k v) k = v := by
  simp [dGet, alookup_ainsert_self]

theorem dGet_ainsert_ne (d : List (String × ℝ)) (k k' : String) (v : ℝ)
    (h : k' ≠ k) : dGet (ainsert d k v) k' = dGet d k' := by
  simp [dGet, alookup_ainsert_ne _ _ _ _ h]

theorem ainsert_not_mem [DecidableEq κ] (l : List (κ × ν)) (k : κ) (v : ν)
    (h : k ∉ l.map Prod.fst) : ainsert l k v = l ++ [(k, v)] := by
  induction l with
  | nil => rfl
  | cons kv rest ih =>
    simp only [List.map_cons, List.mem_cons, not_or] at h
    simp only [ainsert]
    rw [if_neg fun hh => h.1 hh.symm]
    rw [ih h.2]
    simp

theorem pairGraph_cons (im : String × MarketData)
    (rest : List (String × MarketData)) :
    pairGraph (im :: rest) =
      (yesNode im.1, [(noNode im.1, yesWeight im.2)]) ::
        (noNode im.1, [(yesNode im.1, noWeight im.2)]) :: pairGraph rest := rfl

theorem mem_pairGraph_keys {markets : List (String × MarketData)} {x : String} :
    x ∈ (pairGraph markets).map Prod.fst ↔
      ∃ im ∈ markets, x = yesNode im.1 ∨ x = noNode im.1 := by
  induction markets with
  | nil => simp [pairGraph]
  | cons im rest ih =>
    simp only [pairGraph_cons, List.map_cons, List.mem_cons, ih,
      List.exists_mem_cons_iff]
    aesop

theorem pairGraph_length (markets : List (String × MarketData)) :
    (pairGraph markets).length = 2 * markets.length := by
  induction markets with
  | nil => rfl
  | cons im rest ih =>
    simp only [pairGraph_cons, List.length_cons, ih, List.length_cons]
    omega

theorem graphEdges_pairGraph (markets : List (String × MarketData)) :
    graphEdges (pairGraph markets) = pairEdges markets := by
  induction markets with
  | nil => rfl
  | cons im rest ih =>
    have hg : graphEdges (pairGraph (im :: rest)) =
        (yesNode im.1, noNode im.1, yesWeight im.2) ::
          (noNode im.1, yesNode im.1, noWeight im.2) ::
            graphEdges (pairGraph rest) := by
      simp [pairGraph_cons, graphEdges]
    rw [hg, ih]
    rfl

theorem pairEdges_cons (im : String × MarketData)
    (rest : List (String × MarketData)) :
    pairEdges (im :: rest) =
      (yesNode im.1, noNode im.1, yesWeight im.2) ::
        (noNode im.1, yesNode im.1, noWeight im.2) :: pairEdges rest := rfl

theorem mem_pairEdges {markets : List (String × MarketData)}
    {e : String × String × ℝ} :
    e ∈ pairEdges markets ↔
      ∃ im ∈ markets,
        e = (yesNode im.1, noNode im.1, yesWeight im.2) ∨
          e = (noNode im.1, yesNode im.1, noWeight im.2) := by
  induction markets with
  | nil => simp [pairEdges]
  | cons im rest ih =>
    simp only [pairEdges_cons, List.mem_cons, ih, List.exists_mem_cons_iff]
    aesop

theorem buildPriceStep_fresh (acc : List (String × List (String × ℝ)))
    (im : String × MarketData) (hy : yesNode im.1 ∉ acc.map Prod.fst)
    (hn : noNode im.1 ∉ acc.map Prod.fst) :
    buildPriceStep acc im =
      acc ++ [(yesNode im.1, [(noNode im.1, yesWeight im.2)]),
        (noNode im.1, [(yesNode im.1, noWeight im.2)])] := by
  have hlk1 : alookup acc (yesNode im.1) = none :=
    alookup_eq_none_of_not_mem_keys hy
  simp only [buildPriceStep, hlk1, Option.getD_none]
  have h1 : ainsert ([] : List (String × ℝ)) (noNode im.1)
      (-Real.log (im.2.yes_price : ℝ)) = [(noNode im.1, yesWeight im.2)] := by
    simp [ainsert, yesWeight]
  rw [h1, ainsert_not_mem acc _ _ hy]
  have hno1 : noNode im.1 ∉
      (acc ++ [(yesNode im.1, [(noNode im.1, yesWeight im.2)])]).map Prod.fst := by
    simp only [List.map_append, List.mem_append, List.map_cons, List.map_nil,
      List.mem_cons, List.not_mem_nil, not_or]
    exact ⟨hn, fun hc => yesNode_ne_noNode im.1 im.1 hc.symm, fun hc => hc.elim⟩
  have hlk2 : alookup (acc ++ [(yesNode im.1, [(noNode im.1, yesWeight im.2)])])
      (noNode im.1) = none := alookup_eq_none_of_not_mem_keys hno1
  rw [hlk2]
  simp only [Option.getD_none]
  have h2 : ainsert ([] : List (String × ℝ)) (yesNode im.1)
      (-Real.log (im.2.no_price : ℝ)) = [(yesNode im.1, noWeight im.2)] := by
    simp [ainsert, noWeight]
  rw [h2, ainsert_not_mem _ _ _ hno1]
  simp

theorem build_price_graph_aux :
    ∀ (ms : List (String × MarketData)) (acc : List (String × List (String × ℝ))),
      (ms.map Prod.fst).Nodup →
      (∀ im ∈ ms, yesNode im.1 ∉ acc.map Prod.fst ∧
        noNode im.1 ∉ acc.map Prod.fst) →
      ms.foldl buildPriceStep acc = acc ++ pairGraph ms := by
  intro ms
  induction ms with
  | nil => intro acc _ _; simp [pairGraph]
  | cons im rest ih =>
    intro acc hnodup hfresh
    have hfresh0 := hfresh im (List.mem_cons_self _ _)
    rw [List.foldl_cons, buildPriceStep_fresh acc im hfresh0.1 hfresh0.2]
    simp only [List.map_cons, List.nodup_cons] at hnodup
    have hrest :
        ∀ im' ∈ rest,
          yesNode im'.1 ∉
              (acc ++ [(yesNode im.1, [(noNode im.1, yesWeight im.2)]),
                (noNode im.1, [(yesNode im.1, noWeight im.2)])]).map Prod.fst ∧
            noNode im'.1 ∉
              (acc ++ [(yesNode im.1, [(noNode im.1, yesWeight im.2)]),
                (noNode im.1, [(yesNode im.1, noWeight im.2)])]).map Prod.fst := by
      intro im' hm'
      have hid : im'.1 ≠ im.1 := by
        intro hc
        exact hnodup.1 (hc ▸ List.mem_map_of_mem Prod.fst hm')
      have hf' := hfresh im' (List.mem_cons_of_mem _ hm')
      constructor
      · simp only [List.map_append, List.mem_append, List.map_cons,
          List.map_nil, List.mem_cons, List.not_mem_nil, not_or]
        exact ⟨hf'.1, fun hc => hid (yesNode_inj hc),
          fun hc => yesNode_ne_noNode im'.1 im.1 hc, fun hc => hc.elim⟩
      · simp only [List.map_append, List.mem_append, List.map_cons,
          List.map_nil, List.mem_cons, List.not_mem_nil, not_or]
        exact ⟨hf'.2, fun hc => yesNode_ne_noNode im.1 im'.1 hc.symm,
          fun hc => hid (noNode_inj hc), fun hc => hc.elim⟩
    rw [ih _ hnodup.2 hrest, pairGraph_cons]
    simp

theorem build_price_graph_eq_pairGraph (markets : List (String × MarketData))
    (hnodup : (markets.map Prod.fst).Nodup) :
    GraphArbitrageDetector._build_price_graph ⟨markets⟩ = pairGraph markets := by
  have := build_price_graph_aux markets [] hnodup (by simp)
  simpa [GraphArbitrageDetector._build_price_graph] using this

/-! ### C9 — Bellman-Ford invariants for in-range prices -/

theorem yesWeight_pos {m : MarketData} (h0 : 0 < m.yes_price)
    (h1 : m.yes_price < 1) : 0 < yesWeight m := by
  simp only [yesWeight]
  have : Real.log (m.yes_price : ℝ) < 0 :=
    Real.log_neg (by exact_mod_cast h0) (by exact_mod_cast h1)
  linarith

theorem noWeight_pos {m : MarketData} (h0 : 0 < m.no_price)
    (h1 : m.no_price < 1) : 0 < noWeight m := by
  simp only [noWeight]
  have : Real.log (m.no_price : ℝ) < 0 :=
    Real.log_neg (by exact_mod_cast h0) (by exact_mod_cast h1)
  linarith

theorem relaxStep_preserves_I {s p : String} {ws wp : ℝ}
    {E : List (String × String × ℝ)} (hE : goodEdges s p ws wp E)
    {e : String × String × ℝ} (he : e ∈ E) {st : MmbfState}
    (hI : distInvariantI s p ws st.dist) :
    distInvariantI s p ws (relaxStep st e).dist := by
  obtain ⟨hsp, hws, hwp, hmem, hall⟩ := hE
  obtain ⟨hw, hshape⟩ := hall e he
  obtain ⟨hs0, hp0, hother⟩ := hI
  rw [relaxStep]
  split
  · next hcond =>
    rcases hshape with rfl | rfl | ⟨h1, h2, h3, h4⟩
    · simp only at hcond
      rcases hp0 with hpM | ⟨hpw, hwlt⟩
      · refine ⟨?_, Or.inr ⟨?_, ?_⟩, ?_⟩
        · exact (dGet_ainsert_ne _ _ _ _ hsp).trans hs0
        · rw [dGet_ainsert_self, hs0, zero_add]
        · rw [hs0, hpM, zero_add] at hcond
          exact hcond
        · intro x hxs hxp
          exact (dGet_ainsert_ne _ _ _ _ hxp).trans (hother x hxs hxp)
      · rw [hs0, hpw, zero_add] at hcond
        exact absurd hcond (lt_irrefl ws)
    · exfalso
      simp only at hcond
      rcases hp0 with hpM | ⟨hpw, hwlt⟩
      · rw [hpM, hs0] at hcond
        have := f64MAX_pos
        linarith
      · rw [hpw, hs0] at hcond
        linarith
    · exfalso
      have hu := hother e.1 h1 h2
      have hv := hother e.2.1 h3 h4
      rw [hu, hv] at hcond
      linarith
  · exact ⟨hs0, hp0, hother⟩

theorem relaxStep_sp_F {s p : String} {ws wp : ℝ}
    {E : List (String × String × ℝ)} (hE : goodEdges s p ws wp E)
    {st : MmbfState} (hI : distInvariantI s p ws st.dist) :
    distInvariantF s p ws (relaxStep st (s, p, ws)).dist := by
  obtain ⟨hsp, hws, hwp, hmem, hall⟩ := hE
  obtain ⟨hs0, hp0, hother⟩ := hI
  rw [relaxStep]
  split
  · next hcond =>
    simp only at hcond
    refine ⟨?_, ?_, ?_⟩
    · exact (dGet_ainsert_ne _ _ _ _ hsp).trans hs0
    · rw [dGet_ainsert_self, hs0, zero_add]
      rcases hp0 with hpM | ⟨hpw, hwlt⟩
      · rw [hs0, hpM, zero_add] at hcond
        rw [if_pos hcond]
      · rw [hs0, hpw, zero_add] at hcond
        exact absurd hcond (lt_irrefl _)
    · intro x hxs hxp
      exact (dGet_ainsert_ne _ _ _ _ hxp).trans (hother x hxs hxp)
  · next hcond =>
    simp only at hcond
    refine ⟨hs0, ?_, hother⟩
    rcases hp0 with hpM | ⟨hpw, hwlt⟩
    · rw [hs0, hpM, zero_add] at hcond
      rw [hpM, if_neg hcond]
    · rw [hpw, if_pos hwlt]

theorem F_no_relax {s p : String} {ws wp : ℝ}
    {E : List (String × String × ℝ)} (hE : goodEdges s p ws wp E)
    {e : String × String × ℝ} (he : e ∈ E) {st : MmbfState}
    (hF : distInvariantF s p ws st.dist) :
    ¬ (dGet st.dist e.1 + e.2.2 < dGet st.dist e.2.1) := by
  obtain ⟨hsp, hws, hwp, hmem, hall⟩ := hE
  obtain ⟨hw, hshape⟩ := hall e he
  obtain ⟨hs0, hp0, hother⟩ := hF
  intro hcond
  rcases hshape with rfl | rfl | ⟨h1, h2, h3, h4⟩
  · simp only [hs0, hp0, zero_add] at hcond
    split at hcond
    · exact absurd hcond (lt_irrefl _)
    · next hlt => exact hlt hcond
  · simp only [hs0, hp0] at hcond
    split at hcond
    · linarith
    · have := f64MAX_pos
      linarith
  · rw [hother e.1 h1 h2, hother e.2.1 h3 h4] at hcond
    linarith

theorem relaxStep_F_eq {s p : String} {ws wp : ℝ}
    {E : List (String × String × ℝ)} (hE : goodEdges s p ws wp E)
    {e : String × String × ℝ} (he : e ∈ E) {st : MmbfState}
    (hF : distInvariantF s p ws st.dist) : relaxStep st e = st := by
  rw [relaxStep, if_neg (F_no_relax hE he hF)]

theorem foldl_relax_I {s p : String} {ws wp : ℝ}
    {E : List (String × String × ℝ)} (hE : goodEdges s p ws wp E) :
    ∀ (l : List (String × String × ℝ)), (∀ e ∈ l, e ∈ E) →
      ∀ st : MmbfState, distInvariantI s p ws st.dist →
        distInvariantI s p ws (l.foldl relaxStep st).dist := by
  intro l
  induction l with
  | nil => intro _ st hI; exact hI
  | cons e rest ih =>
    intro hl st hI
    rw [List.foldl_cons]
    exact ih (fun e' he' => hl e' (List.mem_cons_of_mem _ he'))
      _ (relaxStep_preserves_I hE (hl e (List.mem_cons_self _ _)) hI)

theorem foldl_relax_F_eq {s p : String} {ws wp : ℝ}
    {E : List (String × String × ℝ)} (hE : goodEdges s p ws wp E) :
    ∀ (l : List (String × String × ℝ)), (∀ e ∈ l, e ∈ E) →
      ∀ st : MmbfState, distInvariantF s p ws st.dist →
        l.foldl relaxStep st = st := by
  intro l
  induction l with
  | nil => intro _ st _; rfl
  | cons e rest ih =>
    intro hl st hF
    rw [List.foldl_cons, relaxStep_F_eq hE (hl e (List.mem_cons_self _ _)) hF]
    exact ih (fun e' he' => hl e' (List.mem_cons_of_mem _ he')) st hF

theorem relaxPass_F {s p : String} {ws wp : ℝ}
    {E : List (String × String × ℝ)} (hE : goodEdges s p ws wp E)
    {st : MmbfState} (hI : distInvariantI s p ws st.dist) :
    distInvariantF s p ws (relaxPass E st).dist := by
  obtain ⟨l₁, l₂, hEeq⟩ := List.append_of_mem hE.2.2.2.1
  rw [relaxPass, hEeq, List.foldl_append, List.foldl_cons]
  have hmem₁ : ∀ e ∈ l₁, e ∈ E := fun e he => by
    rw [hEeq]; exact List.mem_append_left _ he
  have hmem₂ : ∀ e ∈ l₂, e ∈ E := fun e he => by
    rw [hEeq]; exact List.mem_append_right _ (List.mem_cons_of_mem _ he)
  have hI1 := foldl_relax_I hE l₁ hmem₁ st hI
  have hF1 := relaxStep_sp_F hE hI1
  rw [foldl_relax_F_eq hE l₂ hmem₂ _ hF1]
  exact hF1

theorem relaxPass_F_eq {s p : String} {ws wp : ℝ}
    {E : List (String × String × ℝ)} (hE : goodEdges s p ws wp E)
    {st : MmbfState} (hF : distInvariantF s p ws st.dist) :
    relaxPass E st = st :=
  foldl_relax_F_eq hE E (fun _ he => he) st hF

theorem iterate_relaxPass_F {s p : String} {ws wp : ℝ}
    {E : List (String × String × ℝ)} (hE : goodEdges s p ws wp E)
    {st : MmbfState} (hI : distInvariantI s p ws st.dist) (n : ℕ)
    (hn : 1 ≤ n) : distInvariantF s p ws ((relaxPass E)^[n] st).dist := by
  obtain ⟨k, rfl⟩ : ∃ k, n = k + 1 := ⟨n - 1, by omega⟩
  rw [Function.iterate_succ_apply]
  have hF := relaxPass_F hE hI
  have hfix : ∀ (m : ℕ) (st' : MmbfState), distInvariantF s p ws st'.dist →
      (relaxPass E)^[m] st' = st' := by
    intro m
    induction m with
    | zero => intro st' _; rfl
    | succ m ihm =>
      intro st' hF'
      rw [Function.iterate_succ_apply, relaxPass_F_eq hE hF']
      exact ihm st' hF'
  rw [hfix _ _ hF]
  exact hF

theorem check_fold_empty {s p : String} {ws wp : ℝ}
    {E : List (String × String × ℝ)} (hE : goodEdges s p ws wp E)
    (st : MmbfState) (hF : distInvariantF s p ws st.dist) :
    ∀ (l : List (String × String × ℝ)), (∀ e ∈ l, e ∈ E) →
      ∀ acc : List (List String),
        l.foldl
          (fun acc e =>
            if dGet st.dist e.1 + e.2.2 < dGet st.dist e.2.1 then
              acc ++ (extractCycle st.pred e.2.1).toList
            else acc)
          acc = acc := by
  intro l
  induction l with
  | nil => intro _ acc; rfl
  | cons e rest ih =>
    intro hl acc
    rw [List.foldl_cons,
      if_neg (F_no_relax hE (hl e (List.mem_cons_self _ _)) hF)]
    exact ih (fun e' he' => hl e' (List.mem_cons_of_mem _ he')) acc

theorem reset_allMax :
    ∀ (graph : List (String × List (String × ℝ))) (dist : List (String × ℝ)),
      (∀ x, x ∉ graph.map Prod.fst → dGet dist x = f64MAX) →
      ∀ x, dGet (graph.foldl (fun d n => ainsert d n.1 f64MAX) dist) x =
        f64MAX := by
  intro graph
  induction graph with
  | nil => intro dist h x; exact h x (by simp)
  | cons n rest ih =>
    intro dist h x
    rw [List.foldl_cons]
    apply ih
    intro y hy
    by_cases hyn : y = n.1
    · subst hyn
      exact dGet_ainsert_self _ _ _
    · rw [dGet_ainsert_ne _ _ _ _ hyn]
      apply h
      simp only [List.map_cons, List.mem_cons, not_or]
      exact ⟨hyn, hy⟩

theorem init_I {s p : String} {ws : ℝ} (hsp : s ≠ p)
    {dist : List (String × ℝ)} (hM : distAllMax dist) :
    distInvariantI s p ws (ainsert dist s 0) := by
  refine ⟨dGet_ainsert_self _ _ _, Or.inl ?_, ?_⟩
  · rw [dGet_ainsert_ne _ _ _ _ (Ne.symm hsp)]
    exact hM p
  · intro x hxs _
    rw [dGet_ainsert_ne _ _ _ _ hxs]
    exact hM x

theorem goodEdges_yes {ms : List (String × MarketData)}
    (hnodup : (ms.map Prod.fst).Nodup)
    (hprices : ∀ im ∈ ms, 0 < im.2.yes_price ∧ im.2.yes_price < 1 ∧
      0 < im.2.no_price ∧ im.2.no_price < 1)
    {im : String × MarketData} (him : im ∈ ms) :
    goodEdges (yesNode im.1) (noNode im.1) (yesWeight im.2) (noWeight im.2)
      (pairEdges ms) := by
  obtain ⟨hy0, hy1, hn0, hn1⟩ := hprices im him
  refine ⟨yesNode_ne_noNode im.1 im.1, yesWeight_pos hy0 hy1,
    noWeight_pos hn0 hn1, mem_pairEdges.mpr ⟨im, him, Or.inl rfl⟩, ?_⟩
  intro e he
  obtain ⟨im', him', hcase⟩ := mem_pairEdges.mp he
  obtain ⟨hy0', hy1', hn0', hn1'⟩ := hprices im' him'
  by_cases hid : im'.1 = im.1
  · have heq : im' = im := List.inj_on_of_nodup_map hnodup him' him hid
    subst heq
    rcases hcase with rfl | rfl
    · exact ⟨yesWeight_pos hy0' hy1', Or.inl rfl⟩
    · exact ⟨noWeight_pos hn0' hn1', Or.inr (Or.inl rfl)⟩
  · rcases hcase with rfl | rfl
    · exact ⟨yesWeight_pos hy0' hy1',
        Or.inr (Or.inr ⟨fun hc => hid (yesNode_inj hc),
          fun hc => yesNode_ne_noNode im'.1 im.1 hc,
          fun hc => yesNode_ne_noNode im.1 im'.1 hc.symm,
          fun hc => hid (noNode_inj hc)⟩)⟩
    · exact ⟨noWeight_pos hn0' hn1',
        Or.inr (Or.inr ⟨fun hc => yesNode_ne_noNode im.1 im'.1 hc.symm,
          fun hc => hid (noNode_inj hc),
          fun hc => hid (yesNode_inj hc),
          fun hc => yesNode_ne_noNode im'.1 im.1 hc⟩)⟩

theorem goodEdges_no {ms : List (String × MarketData)}
    (hnodup : (ms.map Prod.fst).Nodup)
    (hprices : ∀ im ∈ ms, 0 < im.2.yes_price ∧ im.2.yes_price < 1 ∧
      0 < im.2.no_price ∧ im.2.no_price < 1)
    {im : String × MarketData} (him : im ∈ ms) :
    goodEdges (noNode im.1) (yesNode im.1) (noWeight im.2) (yesWeight im.2)
      (pairEdges ms) := by
  obtain ⟨hy0, hy1, hn0, hn1⟩ := hprices im him
  refine ⟨(yesNode_ne_noNode im.1 im.1).symm, noWeight_pos hn0 hn1,
    yesWeight_pos hy0 hy1, mem_pairEdges.mpr ⟨im, him, Or.inr rfl⟩, ?_⟩
  intro e he
  obtain ⟨im', him', hcase⟩ := mem_pairEdges.mp he
  obtain ⟨hy0', hy1', hn0', hn1'⟩ := hprices im' him'
  by_cases hid : im'.1 = im.1
  · have heq : im' = im := List.inj_on_of_nodup_map hnodup him' him hid
    subst heq
    rcases hcase with rfl | rfl
    · exact ⟨yesWeight_pos hy0' hy1', Or.inr (Or.inl rfl)⟩
    · exact ⟨noWeight_pos hn0' hn1', Or.inl rfl⟩
  · rcases hcase with rfl | rfl
    · exact ⟨yesWeight_pos hy0' hy1',
        Or.inr (Or.inr ⟨fun hc => yesNode_ne_noNode im'.1 im.1 hc,
          fun hc => hid (yesNode_inj hc),
          fun hc => hid (noNode_inj hc),
          fun hc => yesNode_ne_noNode im.1 im'.1 hc.symm⟩)⟩
    · exact ⟨noWeight_pos hn0' hn1',
        Or.inr (Or.inr ⟨fun hc => hid (noNode_inj hc),
          fun hc => yesNode_ne_noNode im.1 im'.1 hc.symm,
          fun hc => yesNode_ne_noNode im'.1 im.1 hc,
          fun hc => hid (yesNode_inj hc)⟩)⟩

theorem mmbfFromStart_empty_of_good {G : List (String × List (String × ℝ))}
    {E : List (String × String × ℝ)} {s p : String} {ws wp : ℝ}
    (hE : goodEdges s p ws wp E) (hlen : 1 ≤ G.length)
    (hkeys : ∀ x, x ∉ G.map Prod.fst → x ≠ s ∧ x ≠ p)
    {st : MmbfState} (hM : distAllMax st.dist) :
    (mmbfFromStart G E st s).1 = [] ∧
      distAllMax (mmbfFromStart G E st s).2.dist := by
  have hI : distInvariantI s p ws
      ({ st with dist := ainsert st.dist s 0 } : MmbfState).dist :=
    init_I hE.1 hM
  have hF := iterate_relaxPass_F hE hI G.length hlen
  constructor
  · simp only [mmbfFromStart]
    exact check_fold_empty hE _ hF E (fun _ he => he) []
  · simp only [mmbfFromStart]
    intro x
    apply reset_allMax
    intro y hy
    obtain ⟨hys, hyp⟩ := hkeys y hy
    exact hF.2.2 y hys hyp

theorem mmbfFromStart_pair_empty {ms : List (String × MarketData)}
    (hnodup : (ms.map Prod.fst).Nodup)
    (hprices : ∀ im ∈ ms, 0 < im.2.yes_price ∧ im.2.yes_price < 1 ∧
      0 < im.2.no_price ∧ im.2.no_price < 1)
    {start : String} (hstart : start ∈ (pairGraph ms).map Prod.fst)
    {st : MmbfState} (hM : distAllMax st.dist) :
    (mmbfFromStart (pairGraph ms) (pairEdges ms) st start).1 = [] ∧
      distAllMax (mmbfFromStart (pairGraph ms) (pairEdges ms) st start).2.dist := by
  have hlen : 1 ≤ (pairGraph ms).length := by
    have h0 := List.length_pos_of_mem hstart
    rw [List.length_map] at h0
    omega
  obtain ⟨im, him, hcase⟩ := mem_pairGraph_keys.mp hstart
  rcases hcase with rfl | rfl
  · apply mmbfFromStart_empty_of_good (goodEdges_yes hnodup hprices him) hlen
      ?_ hM
    intro x hx
    constructor
    · intro hc
      apply hx
      rw [hc]
      exact mem_pairGraph_keys.mpr ⟨im, him, Or.inl rfl⟩
    · intro hc
      apply hx
      rw [hc]
      exact mem_pairGraph_keys.mpr ⟨im, him, Or.inr rfl⟩
  · apply mmbfFromStart_empty_of_good (goodEdges_no hnodup hprices him) hlen
      ?_ hM
    intro x hx
    constructor
    · intro hc
      apply hx
      rw [hc]
      exact mem_pairGraph_keys.mpr ⟨im, him, Or.inr rfl⟩
    · intro hc
      apply hx
      rw [hc]
      exact mem_pairGraph_keys.mpr ⟨im, him, Or.inl rfl⟩

theorem mmbfAlgorithm_pair_empty {ms : List (String × MarketData)}
    (hnodup : (ms.map Prod.fst).Nodup)
    (hprices : ∀ im ∈ ms, 0 < im.2.yes_price ∧ im.2.yes_price < 1 ∧
      0 < im.2.no_price ∧ im.2.no_price < 1) :
    mmbfAlgorithm (pairGraph ms) = [] := by
  have hfold : ∀ (l : List (String × List (String × ℝ))),
      (∀ n ∈ l, n.1 ∈ (pairGraph ms).map Prod.fst) →
      ∀ (acc : List (List String) × MmbfState), acc.1 = [] →
        distAllMax acc.2.dist →
        (l.foldl
            (fun (acc : List (List String) × MmbfState) n =>
              let r := mmbfFromStart (pairGraph ms) (pairEdges ms) acc.2 n.1
              (acc.1 ++ r.1, r.2))
            acc).1 = [] := by
    intro l
    induction l with
    | nil => intro _ acc h _; exact h
    | cons n rest ih =>
      intro hl acc hacc hM
      rw [List.foldl_cons]
      have hstep := mmbfFromStart_pair_empty hnodup hprices
        (hl n (List.mem_cons_self _ _)) hM
      exact ih (fun n' hn' => hl n' (List.mem_cons_of_mem _ hn')) _
        (by simp [hacc, hstep.1]) hstep.2
  have hinit : distAllMax
      ((pairGraph ms).foldl (fun d n => ainsert d n.1 f64MAX) []) := by
    intro x
    apply reset_allMax
    intro y _
    simp [dGet, alookup]
  simp only [mmbfAlgorithm, graphEdges_pairGraph]
  exact hfold (pairGraph ms) (fun n hn => List.mem_map_of_mem Prod.fst hn)
    _ rfl hinit

/-- C9: when every price lies strictly between 0 and 1, the Graph Scanner
finds nothing: the only edges connect the two sides of the same instrument
with the strictly positive weights `-ln(yes_price)` and `-ln(no_price)`, so no
edge is still relaxable after the Bellman-Ford sweeps and
`detect_arbitrage_cycles` returns the empty list. -/
theorem C9_detect_arbitrage_cycles_empty :
    ∀ markets : List (String × MarketData),
      (markets.map Prod.fst).Nodup →
      (∀ im ∈ markets, 0 < im.2.yes_price ∧ im.2.yes_price < 1 ∧
        0 < im.2.no_price ∧ im.2.no_price < 1) →
      GraphArbitrageDetector.detect_arbitrage_cycles ⟨markets⟩ = [] := by
  intro markets hnodup hprices
  simp only [GraphArbitrageDetector.detect_arbitrage_cycles,
    build_price_graph_eq_pairGraph markets hnodup,
    mmbfAlgorithm_pair_empty hnodup hprices]
  rfl

/-- Witness for C9 at a one-market map with prices `1/2` and `1/3`. -/
theorem C9_detect_arbitrage_cycles_witness :
    GraphArbitrageDetector.detect_arbitrage_cycles
      ⟨[("A",
          { id := "A", question := "q", yes_price := 1/2, no_price := 1/3,
            yes_liquidity := 0, no_liquidity := 0, volume_24h := 0 })]⟩ = [] :=
  C9_detect_arbitrage_cycles_empty
    [("A",
        { id := "A", question := "q", yes_price := 1/2, no_price := 1/3,
          yes_liquidity := 0, no_liquidity := 0, volume_24h := 0 })]
    (by decide)
    (by
      intro im him
      rw [List.mem_singleton] at him
      subst him
      refine ⟨by norm_num, by norm_num, by norm_num, by norm_num⟩)

end PolyHft
